import Mathlib

/-!
Verification of the session/authentication gate, the LRU response cache, the
ChatGPT relay and the SSE streaming endpoint of the jupyterlab_edu_extension
server extension.  All definitions are shallow embeddings of the Python
sources (`jupyterlab_edu_extension/handlers.py` and
`jupyterlab_edu_extension/services/chatgpt_service.py`).
-/

namespace EduExt

/-!
Session store, `handlers.py` lines 26-41.  The module-level dict
`_active_sessions : dict[str, dict]` is modelled as a function from session
ids to optional records; dict item assignment and `dict.pop(key, None)`
become pointwise updates.  The records stored by the login handler always
carry the four fields below, so they are modelled as a structure (in
particular a stored record is a non-empty Python dict and therefore truthy).
-/

structure SessionData where
  student_id : String
  name : String
  notebook_name : String
  logged_in_at : String

def SessionStore : Type := String → Option SessionData

def get_session (s : SessionStore) (session_id : String) : Option SessionData :=
  s session_id

def set_session (s : SessionStore) (session_id : String) (data : SessionData) :
    SessionStore :=
  fun x => if x = session_id then some data else s x

def remove_session (s : SessionStore) (session_id : String) : SessionStore :=
  fun x => if x = session_id then none else s x

/-!
The login guard, `handlers.py` lines 44-60 (`require_login`), and the manual
login check of the streaming handler (lines 315-321), which is the same test.
`body.get("session_id")` yields `None` for a missing field (modelled `none`);
a `None` or empty-string value is falsy, in which case Python's `or` falls
through to `self.get_argument("session_id", None)`.  The guard rejects when
the resulting value is falsy (`not session_id`) or is not a key of the store
(`not get_session(session_id)`; stored records are non-empty dicts, hence
truthy).  The wrapped handler is modelled as a state transformer so that
"the handler body never executes" is visible as "the state is unchanged and
the response does not depend on the handler".
-/

structure JsonResp where
  status : Nat
  success : Bool
  error_code : Option String
deriving DecidableEq

def notLoggedInResp : JsonResp :=
  { status := 401, success := false, error_code := some "NOT_LOGGED_IN" }

def extract_token (bodyTok queryTok : Option String) : Option String :=
  match bodyTok with
  | some s => if s = "" then queryTok else some s
  | none => queryTok

def require_login {σ : Type} (store : SessionStore) (bodyTok queryTok : Option String)
    (handler : σ → σ × JsonResp) (st : σ) : σ × JsonResp :=
  match extract_token bodyTok queryTok with
  | none => (st, notLoggedInResp)
  | some s =>
      if s = "" then (st, notLoggedInResp)
      else
        match get_session store s with
        | none => (st, notLoggedInResp)
        | some _ => handler st

/-- C1: a request whose extracted session token is absent, or whose token is
not a key of the session store, is answered with HTTP 401 and machine code
`NOT_LOGGED_IN` and the wrapped handler never executes (the handler state is
untouched and the response is independent of the handler); a request whose
token is present in the store is forwarded to the wrapped handler.  The
hypothesis `hws` records the program invariant that the empty string is never
stored as a session id (`AuthLoginHandler` only stores non-empty generated or
provider-returned ids). -/
theorem auth_gate_guard {σ : Type} (store : SessionStore)
    (hws : get_session store "" = none)
    (handler : σ → σ × JsonResp) (st : σ) (bodyTok queryTok : Option String) :
    (extract_token bodyTok queryTok = none →
      require_login store bodyTok queryTok handler st = (st, notLoggedInResp)) ∧
    (∀ tok, extract_token bodyTok queryTok = some tok →
      get_session store tok = none →
      require_login store bodyTok queryTok handler st = (st, notLoggedInResp)) ∧
    (∀ tok d, extract_token bodyTok queryTok = some tok →
      get_session store tok = some d →
      require_login store bodyTok queryTok handler st = handler st) := by
  refine ⟨fun h => ?_, fun tok h hmiss => ?_, fun tok d h hhit => ?_⟩
  · simp [require_login, h]
  · by_cases he : tok = ""
    · simp [require_login, h, he]
    · simp [require_login, h, he, hmiss]
  · have he : tok ≠ "" := by
      intro he; rw [he, hws] at hhit; cases hhit
    simp [require_login, h, he, hhit]

/-- C1 witness: at the concrete store holding only token "tok-1", a request
with no token is rejected, a request with unknown token "zzz" is rejected,
and a request with token "tok-1" reaches the handler. -/
theorem auth_gate_guard_witness :
    let d : SessionData := ⟨"S1", "Alice", "hw1.ipynb", "t0"⟩
    let store : SessionStore := fun x => if x = "tok-1" then some d else none
    let handler : Nat → Nat × JsonResp := fun n => (n + 1, ⟨200, true, none⟩)
    require_login store none none handler 0 = (0, notLoggedInResp) ∧
    require_login store (some "zzz") none handler 0 = (0, notLoggedInResp) ∧
    require_login store (some "tok-1") none handler 0 = handler 0 := by
  intro d store handler
  refine ⟨?_, ?_, ?_⟩
  · exact (auth_gate_guard store rfl handler 0 none none).1 rfl
  · exact (auth_gate_guard store rfl handler 0 (some "zzz") none).2.1 "zzz" rfl rfl
  · exact (auth_gate_guard store rfl handler 0 (some "tok-1") none).2.2 "tok-1" d rfl rfl

/-- C8: a record stored under a token is returned by `get_session` and
survives stores and removals of other tokens; after `remove_session` the
token maps to nothing; removing an already removed token is a no-op (so it
cannot raise); and a removed token is indistinguishable from one that never
existed: the login guard rejects any request carrying it with the 401
`NOT_LOGGED_IN` response. -/
theorem session_lifecycle (s : SessionStore) (t u : String) (r ru : SessionData) :
    get_session (set_session s t r) t = some r ∧
    (u ≠ t → get_session (set_session (set_session s t r) u ru) t = some r) ∧
    (u ≠ t → get_session (remove_session (set_session s t r) u) t = some r) ∧
    get_session (remove_session s t) t = none ∧
    remove_session (remove_session s t) t = remove_session s t ∧
    (∀ (σ : Type) (handler : σ → σ × JsonResp) (st : σ) (bodyTok queryTok : Option String),
      extract_token bodyTok queryTok = some t →
      require_login (remove_session s t) bodyTok queryTok handler st =
        (st, notLoggedInResp)) := by
  refine ⟨?_, fun hu => ?_, fun hu => ?_, ?_, ?_, ?_⟩
  · simp [get_session, set_session]
  · simp [get_session, set_session, Ne.symm hu]
  · simp [get_session, set_session, remove_session, Ne.symm hu]
  · simp [get_session, remove_session]
  · funext x
    by_cases hx : x = t <;> simp [remove_session, hx]
  · intro σ handler st bodyTok queryTok h
    by_cases he : t = ""
    · simp [require_login, h, he]
    · simp [require_login, h, he, get_session, remove_session]

/-- C8 witness: the lifecycle at concrete tokens "a" ≠ "b". -/
theorem session_lifecycle_witness :
    let s0 : SessionStore := fun _ => none
    let r : SessionData := ⟨"S1", "Alice", "hw1.ipynb", "t0"⟩
    let ru : SessionData := ⟨"S2", "Bob", "hw2.ipynb", "t1"⟩
    get_session (set_session s0 "a" r) "a" = some r ∧
    get_session (set_session (set_session s0 "a" r) "b" ru) "a" = some r ∧
    get_session (remove_session (set_session s0 "a" r) "b") "a" = some r ∧
    get_session (remove_session s0 "a") "a" = none ∧
    require_login (remove_session (set_session s0 "a" r) "a") (some "a") none
      (fun n : Nat => (n + 1, ⟨200, true, none⟩)) 0 = (0, notLoggedInResp) := by
  intro s0 r ru
  have h := session_lifecycle s0 "a" "b" r ru
  have h2 := session_lifecycle (set_session s0 "a" r) "a" "b" r ru
  exact ⟨h.1, h.2.1 (by decide), h.2.2.1 (by decide), h.2.2.2.1,
    h2.2.2.2.2.2 Nat (fun n => (n + 1, ⟨200, true, none⟩)) 0 (some "a") none rfl⟩

/-!
The LRU cache, `services/chatgpt_service.py` lines 19-46.  Python's
`OrderedDict[str, str]` is modelled as a list of key-value pairs in recency
order: the head is the oldest (least recently used) entry, the last element
the most recently used.  `move_to_end(key)` becomes "erase the key and
re-append it"; `popitem(last=False)` removes the head.  Keys are unique
(a dict), which the embedding maintains because insertion always erases the
key first.  Note: when `max_size = 0`, Python's `popitem` on an empty dict
would raise; the embedding is only claimed faithful for `0 < max_size`,
which holds for both caches the service creates (200 and 100).
-/

def lookupKey (k : String) : List (String × String) → Option String
  | [] => none
  | (k', v) :: rest => if k' = k then some v else lookupKey k rest

def eraseKey (k : String) : List (String × String) → List (String × String)
  | [] => []
  | (k', v) :: rest => if k' = k then eraseKey k rest else (k', v) :: eraseKey k rest

structure LRUCache where
  cache : List (String × String)
  max_size : Nat

def LRUCache.get (c : LRUCache) (key : String) : Option String × LRUCache :=
  match lookupKey key c.cache with
  | some v => (some v, ⟨eraseKey key c.cache ++ [(key, v)], c.max_size⟩)
  | none => (none, c)

def LRUCache.set (c : LRUCache) (key value : String) : LRUCache :=
  if (lookupKey key c.cache).isSome then
    ⟨eraseKey key c.cache ++ [(key, value)], c.max_size⟩
  else if c.max_size ≤ c.cache.length then
    ⟨c.cache.drop 1 ++ [(key, value)], c.max_size⟩
  else
    ⟨c.cache ++ [(key, value)], c.max_size⟩

/-!
Operation sequences over a fixed-capacity cache, used to state the C2
invariant.  `lastAccess C ops k` is the index of the last operation in `ops`
that read `k` via a `get` hit or wrote `k` via a `set` (computed against the
cache state at that moment, so a `get` miss is not an access).
-/

inductive CacheOp where
  | get (key : String)
  | set (key value : String)

def stepCache (C : Nat) (st : List (String × String)) : CacheOp → List (String × String)
  | .get k => ((LRUCache.get ⟨st, C⟩ k).2).cache
  | .set k v => (LRUCache.set ⟨st, C⟩ k v).cache

def runOps (C : Nat) (ops : List CacheOp) : List (String × String) :=
  ops.foldl (stepCache C) []

def accessesB (st : List (String × String)) (k : String) : CacheOp → Bool
  | .get k' => k' == k && (lookupKey k' st).isSome
  | .set k' _ => k' == k

def lastAccAux (C : Nat) (k : String) :
    List CacheOp → List (String × String) → Nat → Option Nat → Option Nat
  | [], _, _, acc => acc
  | op :: rest, st, i, acc =>
      lastAccAux C k rest (stepCache C st op) (i + 1)
        (if accessesB st k op then some i else acc)

def lastAccess (C : Nat) (ops : List CacheOp) (k : String) : Option Nat :=
  lastAccAux C k ops [] 0 none

/-! Auxiliary lemmas about `lookupKey` and `eraseKey`. -/

theorem lookupKey_eq_none {k : String} {l : List (String × String)}
    (h : k ∉ l.map Prod.fst) : lookupKey k l = none := by
  induction l with
  | nil => rfl
  | cons p rest ih =>
    obtain ⟨k', v'⟩ := p
    simp only [List.map_cons, List.mem_cons, not_or] at h
    simp [lookupKey, Ne.symm h.1, ih h.2]

theorem mem_of_lookupKey_isSome {k : String} {l : List (String × String)}
    (h : (lookupKey k l).isSome) : k ∈ l.map Prod.fst := by
  by_contra hn
  rw [lookupKey_eq_none hn] at h
  cases h

theorem not_mem_of_lookupKey_eq_none {k : String} {l : List (String × String)}
    (h : lookupKey k l = none) : k ∉ l.map Prod.fst := by
  induction l with
  | nil => simp
  | cons p rest ih =>
    obtain ⟨k', v'⟩ := p
    by_cases hp : k' = k
    · simp [lookupKey, hp] at h
    · simp only [lookupKey, if_neg hp] at h
      simp [Ne.symm hp, ih h]

theorem eraseKey_sublist (k : String) (l : List (String × String)) :
    List.Sublist (eraseKey k l) l := by
  induction l with
  | nil => simp [eraseKey]
  | cons p rest ih =>
    obtain ⟨k', v'⟩ := p
    by_cases hp : k' = k
    · simpa [eraseKey, hp] using ih.cons (k', v')
    · simpa [eraseKey, hp] using ih.cons₂ (k', v')

theorem not_mem_keys_eraseKey (k : String) (l : List (String × String)) :
    k ∉ (eraseKey k l).map Prod.fst := by
  induction l with
  | nil => simp [eraseKey]
  | cons p rest ih =>
    obtain ⟨k', v'⟩ := p
    by_cases hp : k' = k
    · simpa [eraseKey, hp] using ih
    · simp [eraseKey, hp, Ne.symm hp, ih]

theorem length_eraseKey_lt {k : String} {l : List (String × String)}
    (h : k ∈ l.map Prod.fst) : (eraseKey k l).length < l.length := by
  induction l with
  | nil => simp at h
  | cons p rest ih =>
    obtain ⟨k', v'⟩ := p
    by_cases hp : k' = k
    · have := (eraseKey_sublist k rest).length_le
      simp only [eraseKey, if_pos hp, List.length_cons]
      omega
    · have hr : k ∈ rest.map Prod.fst := by
        simp only [List.map_cons, List.mem_cons] at h
        rcases h with h1 | h1
        · exact absurd h1.symm hp
        · exact h1
      simp only [eraseKey, if_neg hp, List.length_cons]
      exact Nat.succ_lt_succ (ih hr)

theorem lookupKey_append_self {k v : String} {l : List (String × String)}
    (h : k ∉ l.map Prod.fst) : lookupKey k (l ++ [(k, v)]) = some v := by
  induction l with
  | nil => simp [lookupKey]
  | cons p rest ih =>
    obtain ⟨k', v'⟩ := p
    simp only [List.map_cons, List.mem_cons, not_or] at h
    simp [lookupKey, Ne.symm h.1, ih h.2]

/-! Facts about `lastAccess` and `runOps` under appending one operation. -/

theorem runOps_append (C : Nat) (ops : List CacheOp) (op : CacheOp) :
    runOps C (ops ++ [op]) = stepCache C (runOps C ops) op := by
  simp [runOps]

theorem lastAccAux_append (C : Nat) (k : String) (op : CacheOp) :
    ∀ (l : List CacheOp) (st : List (String × String)) (i : Nat) (acc : Option Nat),
      lastAccAux C k (l ++ [op]) st i acc =
        if accessesB (l.foldl (stepCache C) st) k op then some (i + l.length)
        else lastAccAux C k l st i acc := by
  intro l
  induction l with
  | nil => intro st i acc; simp [lastAccAux]
  | cons o rest ih =>
    intro st i acc
    simp only [List.cons_append, lastAccAux, List.foldl_cons, List.length_cons,
      List.append_eq]
    rw [ih]
    have hidx : i + 1 + rest.length = i + (rest.length + 1) := by omega
    rw [hidx]

theorem lastAccess_append (C : Nat) (ops : List CacheOp) (op : CacheOp) (k : String) :
    lastAccess C (ops ++ [op]) k =
      if accessesB (runOps C ops) k op then some ops.length
      else lastAccess C ops k := by
  simpa [lastAccess, runOps] using lastAccAux_append C k op ops [] 0 none

/-- The inductive invariant for C2: the cache never exceeds its capacity, its
keys are distinct, every resident key has a last-access index, and entries
are ordered front-to-back by strictly increasing last-access index (so the
head is always the least recently read-or-written entry). -/
def CacheInv (C : Nat) (ops : List CacheOp) : Prop :=
  (runOps C ops).length ≤ C ∧
  ((runOps C ops).map Prod.fst).Nodup ∧
  (∀ p ∈ runOps C ops, ∃ t, lastAccess C ops p.1 = some t ∧ t < ops.length) ∧
  (runOps C ops).Pairwise (fun a b => ∃ ta tb, lastAccess C ops a.1 = some ta ∧
    lastAccess C ops b.1 = some tb ∧ ta < tb)

theorem cacheInv_same (C : Nat) (ops : List CacheOp) (op : CacheOp)
    (inv : CacheInv C ops)
    (hst : runOps C (ops ++ [op]) = runOps C ops)
    (hacc0 : ∀ x, accessesB (runOps C ops) x op = false) :
    CacheInv C (ops ++ [op]) := by
  obtain ⟨hlen, hnodup, hacc, hpair⟩ := inv
  have hla : ∀ x, lastAccess C (ops ++ [op]) x = lastAccess C ops x := by
    intro x
    rw [lastAccess_append, hacc0 x]
    simp
  refine ⟨by rw [hst]; exact hlen, by rw [hst]; exact hnodup, ?_, ?_⟩
  · intro p hp
    rw [hst] at hp
    obtain ⟨t, ht, htlt⟩ := hacc p hp
    exact ⟨t, by rw [hla]; exact ht, by simp; omega⟩
  · rw [hst]
    refine hpair.imp ?_
    rintro a b ⟨ta, tb, h1, h2, h3⟩
    exact ⟨ta, tb, by rw [hla]; exact h1, by rw [hla]; exact h2, h3⟩

theorem cacheInv_extend (C : Nat) (ops : List CacheOp) (op : CacheOp) (k v : String)
    (l : List (String × String)) (inv : CacheInv C ops)
    (hst : runOps C (ops ++ [op]) = l ++ [(k, v)])
    (hsub : List.Sublist l (runOps C ops))
    (hlen1 : l.length < C)
    (hacck : accessesB (runOps C ops) k op = true)
    (haccne : ∀ x, x ≠ k → accessesB (runOps C ops) x op = false)
    (hkne : ∀ p ∈ l, p.1 ≠ k) :
    CacheInv C (ops ++ [op]) := by
  obtain ⟨hlen, hnodup, hacc, hpair⟩ := inv
  have hla : ∀ x, x ≠ k → lastAccess C (ops ++ [op]) x = lastAccess C ops x := by
    intro x hx
    rw [lastAccess_append, haccne x hx]
    simp
  have hlak : lastAccess C (ops ++ [op]) k = some ops.length := by
    rw [lastAccess_append, hacck]
    simp
  refine ⟨?_, ?_, ?_, ?_⟩
  · rw [hst]; simp; omega
  · rw [hst]
    simp only [List.map_append, List.map_cons, List.map_nil]
    rw [List.nodup_append]
    refine ⟨hnodup.sublist (hsub.map Prod.fst), by simp, ?_⟩
    intro x hx hx1
    simp only [List.mem_singleton] at hx1
    obtain ⟨p, hp, hpx⟩ := List.mem_map.1 hx
    exact hkne p hp (hpx.trans hx1)
  · intro p hp
    rw [hst] at hp
    rcases List.mem_append.1 hp with hp | hp
    · obtain ⟨t, ht, htlt⟩ := hacc p (hsub.subset hp)
      exact ⟨t, by rw [hla _ (hkne p hp)]; exact ht, by simp; omega⟩
    · simp only [List.mem_singleton] at hp
      subst hp
      exact ⟨ops.length, hlak, by simp⟩
  · rw [hst, List.pairwise_append]
    refine ⟨?_, by simp, ?_⟩
    · refine ((hpair.sublist hsub).imp_of_mem ?_)
      rintro a b ha hb ⟨ta, tb, h1, h2, h3⟩
      exact ⟨ta, tb, by rw [hla _ (hkne a ha)]; exact h1,
        by rw [hla _ (hkne b hb)]; exact h2, h3⟩
    · intro a ha b hb
      simp only [List.mem_singleton] at hb
      subst hb
      obtain ⟨ta, hta, htalt⟩ := hacc a (hsub.subset ha)
      exact ⟨ta, ops.length, by rw [hla _ (hkne a ha)]; exact hta, hlak, htalt⟩

theorem cacheInv (C : Nat) (hC : 0 < C) (ops : List CacheOp) : CacheInv C ops := by
  induction ops using List.reverseRecOn with
  | nil => exact ⟨by simp [runOps], by simp [runOps], by simp [runOps], by simp [runOps]⟩
  | append_singleton ops op ih =>
    have hrn := runOps_append C ops op
    obtain ⟨hlen, hnodup, hacc, hpair⟩ := ih
    cases op with
    | get k =>
      rcases hlk : lookupKey k (runOps C ops) with _ | v
      · refine cacheInv_same C ops _ ⟨hlen, hnodup, hacc, hpair⟩ ?_ ?_
        · rw [hrn]; simp [stepCache, LRUCache.get, hlk]
        · intro x; simp [accessesB, hlk]
      · refine cacheInv_extend C ops _ k v (eraseKey k (runOps C ops))
          ⟨hlen, hnodup, hacc, hpair⟩ ?_ (eraseKey_sublist k _) ?_ ?_ ?_ ?_
        · rw [hrn]; simp [stepCache, LRUCache.get, hlk]
        · have hmem : k ∈ (runOps C ops).map Prod.fst :=
            mem_of_lookupKey_isSome (by rw [hlk]; rfl)
          exact lt_of_lt_of_le (length_eraseKey_lt hmem) hlen
        · simp [accessesB, hlk]
        · intro x hx; simp [accessesB, hlk, Ne.symm hx]
        · intro p hp hpk
          exact not_mem_keys_eraseKey k (runOps C ops)
            (List.mem_map.2 ⟨p, hp, hpk⟩)
    | set k v =>
      rcases hlk : lookupKey k (runOps C ops) with _ | w
      · by_cases hc : C ≤ (runOps C ops).length
        · have hpos : 0 < (runOps C ops).length := lt_of_lt_of_le hC hc
          rcases hnil : runOps C ops with _ | ⟨hd, rest⟩
          · rw [hnil] at hpos; simp at hpos
          · refine cacheInv_extend C ops _ k v rest ⟨hlen, hnodup, hacc, hpair⟩
              ?_ ?_ ?_ ?_ ?_ ?_
            · have hlk2 : lookupKey k (hd :: rest) = none := by
                rw [← hnil]; exact hlk
              have hc2 : C ≤ rest.length + 1 := by
                rw [hnil] at hc; simpa using hc
              rw [hrn, hnil]
              simp [stepCache, LRUCache.set, hlk2, hc2]
            · rw [hnil]; exact List.sublist_cons_self hd rest
            · rw [hnil] at hlen; simp at hlen; omega
            · simp [accessesB]
            · intro x hx; simp [accessesB, Ne.symm hx]
            · intro p hp hpk
              have : k ∈ (runOps C ops).map Prod.fst := by
                rw [hnil]
                exact List.mem_map.2 ⟨p, List.mem_cons_of_mem hd hp, hpk⟩
              exact not_mem_of_lookupKey_eq_none hlk this
        · refine cacheInv_extend C ops _ k v (runOps C ops)
            ⟨hlen, hnodup, hacc, hpair⟩ ?_ (List.Sublist.refl _) (by omega) ?_ ?_ ?_
          · rw [hrn]; simp [stepCache, LRUCache.set, hlk, hc]
          · simp [accessesB]
          · intro x hx; simp [accessesB, Ne.symm hx]
          · intro p hp hpk
            exact not_mem_of_lookupKey_eq_none hlk (List.mem_map.2 ⟨p, hp, hpk⟩)
      · refine cacheInv_extend C ops _ k v (eraseKey k (runOps C ops))
          ⟨hlen, hnodup, hacc, hpair⟩ ?_ (eraseKey_sublist k _) ?_ ?_ ?_ ?_
        · rw [hrn]; simp [stepCache, LRUCache.set, hlk]
        · have hmem : k ∈ (runOps C ops).map Prod.fst :=
            mem_of_lookupKey_isSome (by rw [hlk]; rfl)
          exact lt_of_lt_of_le (length_eraseKey_lt hmem) hlen
        · simp [accessesB]
        · intro x hx; simp [accessesB, Ne.symm hx]
        · intro p hp hpk
          exact not_mem_keys_eraseKey k (runOps C ops)
            (List.mem_map.2 ⟨p, hp, hpk⟩)

/-- C2: starting from an empty cache of capacity `C > 0`, after any sequence
of `get`/`set` operations the cache holds at most `C` entries; and whenever a
`set` with a key not in the cache hits a full cache, the entry evicted is the
head of the recency list, which is the entry whose key has the strictly
smallest last-access index (least recently read via a `get` hit or written
via a `set`) among all resident keys; the evicted key is gone afterwards. -/
theorem lru_capacity_eviction (C : Nat) (hC : 0 < C) (ops : List CacheOp) :
    (runOps C ops).length ≤ C ∧
    (∀ p k v, (∃ suffix, ops = p ++ CacheOp.set k v :: suffix) →
      lookupKey k (runOps C p) = none →
      C ≤ (runOps C p).length →
      ∃ hd rest, runOps C p = hd :: rest ∧
        runOps C (p ++ [CacheOp.set k v]) = rest ++ [(k, v)] ∧
        lookupKey hd.1 (runOps C (p ++ [CacheOp.set k v])) = none ∧
        ∀ x ∈ (runOps C p).map Prod.fst, x ≠ hd.1 →
          ∃ thd tx, lastAccess C p hd.1 = some thd ∧
            lastAccess C p x = some tx ∧ thd < tx) := by
  refine ⟨(cacheInv C hC ops).1, ?_⟩
  rintro p k v ⟨suffix, -⟩ hmiss hfull
  obtain ⟨hlen, hnodup, hacc, hpair⟩ := cacheInv C hC p
  have hpos : 0 < (runOps C p).length := lt_of_lt_of_le hC hfull
  rcases hnil : runOps C p with _ | ⟨hd, rest⟩
  · rw [hnil] at hpos; simp at hpos
  · have hknotin : k ∉ (runOps C p).map Prod.fst := not_mem_of_lookupKey_eq_none hmiss
    have hstep : runOps C (p ++ [CacheOp.set k v]) = rest ++ [(k, v)] := by
      have hlk2 : lookupKey k (hd :: rest) = none := by
        rw [← hnil]; exact hmiss
      have hc2 : C ≤ rest.length + 1 := by
        rw [hnil] at hfull; simpa using hfull
      rw [runOps_append, hnil]
      simp [stepCache, LRUCache.set, hlk2, hc2]
    refine ⟨hd, rest, rfl, hstep, ?_, ?_⟩
    · rw [hstep]
      apply lookupKey_eq_none
      rw [hnil] at hnodup hknotin
      simp only [List.map_cons] at hnodup
      simp only [List.map_append, List.map_cons, List.map_nil, List.mem_append,
        List.mem_singleton, not_or]
      refine ⟨(List.nodup_cons.1 hnodup).1, ?_⟩
      intro he
      exact hknotin (by simp [he])
    · intro x hx hxne
      rw [hnil] at hpair
      simp only [List.map_cons, List.mem_cons] at hx
      rcases hx with hx | hx
      · exact absurd hx hxne
      · obtain ⟨q, hq, hqx⟩ := List.mem_map.1 hx
        obtain ⟨thd, tq, h1, h2, h3⟩ :=
          (List.pairwise_cons.1 hpair).1 q hq
        exact ⟨thd, tq, h1, hqx ▸ h2, h3⟩

/-- C2 witness: capacity 2 with the sequence set a, set b, get a, set c; the
set of c evicts b (the least recently accessed key), not a. -/
theorem lru_capacity_eviction_witness :
    (runOps 2 [CacheOp.set "a" "1", CacheOp.set "b" "2", CacheOp.get "a",
        CacheOp.set "c" "3"]).length ≤ 2 ∧
    ∃ hd rest,
      runOps 2 [CacheOp.set "a" "1", CacheOp.set "b" "2", CacheOp.get "a"] =
        hd :: rest ∧
      runOps 2 ([CacheOp.set "a" "1", CacheOp.set "b" "2", CacheOp.get "a"] ++
        [CacheOp.set "c" "3"]) = rest ++ [("c", "3")] ∧
      lookupKey hd.1 (runOps 2 ([CacheOp.set "a" "1", CacheOp.set "b" "2",
        CacheOp.get "a"] ++ [CacheOp.set "c" "3"])) = none ∧
      ∀ x ∈ (runOps 2 [CacheOp.set "a" "1", CacheOp.set "b" "2",
          CacheOp.get "a"]).map Prod.fst, x ≠ hd.1 →
        ∃ thd tx,
          lastAccess 2 [CacheOp.set "a" "1", CacheOp.set "b" "2",
            CacheOp.get "a"] hd.1 = some thd ∧
          lastAccess 2 [CacheOp.set "a" "1", CacheOp.set "b" "2",
            CacheOp.get "a"] x = some tx ∧ thd < tx := by
  have h := lru_capacity_eviction 2 (by decide)
    [CacheOp.set "a" "1", CacheOp.set "b" "2", CacheOp.get "a", CacheOp.set "c" "3"]
  exact ⟨h.1, h.2 [CacheOp.set "a" "1", CacheOp.set "b" "2", CacheOp.get "a"]
    "c" "3" ⟨[], rfl⟩ (by decide) (by decide)⟩

/-!
Cache keys, `services/chatgpt_service.py` lines 42-46 (`LRUCache.make_key`)
and 74-75 (the call site `make_key(code.strip(), error.strip())`).
`json.dumps(args, sort_keys=True, ensure_ascii=False)` serializes the
argument tuple as a JSON array: `["…", "…"]` with `", "` between elements;
with `ensure_ascii=False` only `"` and `\` and control characters below
0x20 are escaped (`\b \t \n \f \r`, otherwise `\u00xx` with lowercase hex).
The digest is the md5 of the UTF-8 encoding of that serialization.
-/

def hexDig (n : Nat) : Char :=
  if n < 10 then Char.ofNat (48 + n) else Char.ofNat (87 + n)

def escChar (c : Char) : List Char :=
  if c = '"' then ['\\', '"']
  else if c = '\\' then ['\\', '\\']
  else if c = '\n' then ['\\', 'n']
  else if c = '\t' then ['\\', 't']
  else if c = '\r' then ['\\', 'r']
  else if c.toNat = 8 then ['\\', 'b']
  else if c.toNat = 12 then ['\\', 'f']
  else if c.toNat < 32 then
    ['\\', 'u', '0', '0', hexDig (c.toNat / 16), hexDig (c.toNat % 16)]
  else [c]

def escList : List Char → List Char
  | [] => []
  | c :: s => escChar c ++ escList s

def jsonQuoteChars (s : List Char) : List Char :=
  '"' :: escList s ++ ['"']

def serInner : List (List Char) → List Char
  | [] => [']']
  | [s] => jsonQuoteChars s ++ [']']
  | s :: rest => jsonQuoteChars s ++ ',' :: ' ' :: serInner rest

/-- The serialized form `json.dumps(args, sort_keys=True, ensure_ascii=False)`
of a tuple of strings: this is the input fed to the md5 digest. -/
def serStrings (xs : List (List Char)) : List Char :=
  '[' :: serInner xs

/-!
A decoder for the quoted-string encoding, used only to prove that the
serialization is injective on pairs (uniquely decodable): `scanQ` parses the
escaped body of one quoted string up to its closing `"` and returns the
decoded string together with the remaining input.
-/

def hexVal (c : Char) : Option Nat :=
  if 48 ≤ c.toNat ∧ c.toNat ≤ 57 then some (c.toNat - 48)
  else if 97 ≤ c.toNat ∧ c.toNat ≤ 102 then some (c.toNat - 87)
  else none

def scanQ : List Char → Option (List Char × List Char)
  | [] => none
  | c :: r =>
    if c = '"' then some ([], r)
    else if c = '\\' then
      match r with
      | [] => none
      | e :: r2 =>
        if e = '"' then (scanQ r2).map (fun p => ('"' :: p.1, p.2))
        else if e = '\\' then (scanQ r2).map (fun p => ('\\' :: p.1, p.2))
        else if e = 'n' then (scanQ r2).map (fun p => ('\n' :: p.1, p.2))
        else if e = 't' then (scanQ r2).map (fun p => ('\t' :: p.1, p.2))
        else if e = 'r' then (scanQ r2).map (fun p => ('\r' :: p.1, p.2))
        else if e = 'b' then (scanQ r2).map (fun p => (Char.ofNat 8 :: p.1, p.2))
        else if e = 'f' then (scanQ r2).map (fun p => (Char.ofNat 12 :: p.1, p.2))
        else if e = 'u' then
          match r2 with
          | h1 :: h2 :: h3 :: h4 :: r3 =>
            match hexVal h1, hexVal h2, hexVal h3, hexVal h4 with
            | some n1, some n2, some n3, some n4 =>
              (scanQ r3).map
                (fun p => (Char.ofNat (4096 * n1 + 256 * n2 + 16 * n3 + n4) :: p.1, p.2))
            | _, _, _, _ => none
          | _ => none
        else none
    else (scanQ r).map (fun p => (c :: p.1, p.2))

theorem hexVal_hexDig : ∀ n, n < 16 → hexVal (hexDig n) = some n := by decide

theorem scanQ_escList : ∀ (s r : List Char), scanQ (escList s ++ '"' :: r) = some (s, r) := by
  intro s
  induction s with
  | nil =>
    intro r
    simp only [escList, List.nil_append]
    rw [scanQ.eq_def]
    simp
  | cons c s ih =>
    intro r
    by_cases h1 : c = '"'
    · subst h1
      simp [escList, escChar]
      rw [scanQ.eq_def]
      simp [ih]
    · by_cases h2 : c = '\\'
      · subst h2
        simp [escList, escChar]
        rw [scanQ.eq_def]
        simp [ih]
      · by_cases h3 : c = '\n'
        · subst h3
          simp [escList, escChar]
          rw [scanQ.eq_def]
          simp [ih]
        · by_cases h4 : c = '\t'
          · subst h4
            simp [escList, escChar]
            rw [scanQ.eq_def]
            simp [ih]
          · by_cases h5 : c = '\r'
            · subst h5
              simp [escList, escChar]
              rw [scanQ.eq_def]
              simp [ih]
            · by_cases h6 : c.toNat = 8
              · have hc : Char.ofNat 8 = c := by rw [← h6, Char.ofNat_toNat]
                simp [escList, escChar, h1, h2, h3, h4, h5, h6]
                rw [scanQ.eq_def]
                simpa [ih] using hc
              · by_cases h7 : c.toNat = 12
                · have hc : Char.ofNat 12 = c := by rw [← h7, Char.ofNat_toNat]
                  simp [escList, escChar, h1, h2, h3, h4, h5, h6, h7]
                  rw [scanQ.eq_def]
                  simpa [ih] using hc
                · by_cases h8 : c.toNat < 32
                  · have e1 : hexVal (hexDig (c.toNat / 16)) = some (c.toNat / 16) :=
                      hexVal_hexDig _ (by omega)
                    have e2 : hexVal (hexDig (c.toNat % 16)) = some (c.toNat % 16) :=
                      hexVal_hexDig _ (by omega)
                    have e0 : hexVal '0' = some 0 := by decide
                    have harith : 16 * (c.toNat / 16) + c.toNat % 16 = c.toNat :=
                      Nat.div_add_mod c.toNat 16
                    have hc : Char.ofNat c.toNat = c := Char.ofNat_toNat c
                    simp [escList, escChar, h1, h2, h3, h4, h5, h6, h7, h8]
                    rw [scanQ.eq_def]
                    simp [e0, e1, e2, harith, hc, ih]
                  · simp [escList, escChar, h1, h2, h3, h4, h5, h6, h7, h8]
                    rw [scanQ.eq_def]
                    simp [h1, h2, ih]

def parsePair2 (l : List Char) : Option (List Char × List Char) :=
  match l with
  | '[' :: '"' :: r =>
    match scanQ r with
    | some (a, ',' :: ' ' :: '"' :: r2) =>
      match scanQ r2 with
      | some (b, [']']) => some (a, b)
      | _ => none
    | _ => none
  | _ => none

theorem serStrings_pair (a b : List Char) :
    serStrings [a, b] =
      '[' :: '"' :: (escList a ++ '"' :: ',' :: ' ' :: '"' ::
        (escList b ++ '"' :: [']'])) := by
  simp [serStrings, serInner, jsonQuoteChars]

theorem parsePair2_ser (a b : List Char) :
    parsePair2 (serStrings [a, b]) = some (a, b) := by
  rw [serStrings_pair]
  simp [parsePair2, scanQ_escList]

theorem serStrings_pair_injective {a b c d : List Char}
    (h : serStrings [a, b] = serStrings [c, d]) : a = c ∧ b = d := by
  have h2 := congrArg parsePair2 h
  rw [parsePair2_ser, parsePair2_ser] at h2
  simpa using h2

theorem string_data_inj {a b : String} (h : a.data = b.data) : a = b := by
  cases a; cases b; exact congrArg String.mk h

/-! The md5 digest (RFC 1321) over a byte list, little-endian, with 32-bit
words modelled as `Nat` reduced modulo `2^32`.  No property of the digest is
needed by any claim; it is included so that `make_key` is the full function
computed by the source. -/

def M32 : Nat := 4294967296

def add32 (a b : Nat) : Nat := (a + b) % M32

def not32 (a : Nat) : Nat := a ^^^ 4294967295

def rotl32 (x n : Nat) : Nat := ((x <<< n) % M32) ||| (x >>> (32 - n))

def md5K : List Nat :=
  [0xd76aa478, 0xe8c7b756, 0x242070db, 0xc1bdceee,
   0xf57c0faf, 0x4787c62a, 0xa8304613, 0xfd469501,
   0x698098d8, 0x8b44f7af, 0xffff5bb1, 0x895cd7be,
   0x6b901122, 0xfd987193, 0xa679438e, 0x49b40821,
   0xf61e2562, 0xc040b340, 0x265e5a51, 0xe9b6c7aa,
   0xd62f105d, 0x02441453, 0xd8a1e681, 0xe7d3fbc8,
   0x21e1cde6, 0xc33707d6, 0xf4d50d87, 0x455a14ed,
   0xa9e3e905, 0xfcefa3f8, 0x676f02d9, 0x8d2a4c8a,
   0xfffa3942, 0x8771f681, 0x6d9d6122, 0xfde5380c,
   0xa4beea44, 0x4bdecfa9, 0xf6bb4b60, 0xbebfbc70,
   0x289b7ec6, 0xeaa127fa, 0xd4ef3085, 0x04881d05,
   0xd9d4d039, 0xe6db99e5, 0x1fa27cf8, 0xc4ac5665,
   0xf4292244, 0x432aff97, 0xab9423a7, 0xfc93a039,
   0x655b59c3, 0x8f0ccc92, 0xffeff47d, 0x85845dd1,
   0x6fa87e4f, 0xfe2ce6e0, 0xa3014314, 0x4e0811a1,
   0xf7537e82, 0xbd3af235, 0x2ad7d2bb, 0xeb86d391]

def md5S : List Nat :=
  [7, 12, 17, 22, 7, 12, 17, 22, 7, 12, 17, 22, 7, 12, 17, 22,
   5, 9, 14, 20, 5, 9, 14, 20, 5, 9, 14, 20, 5, 9, 14, 20,
   4, 11, 16, 23, 4, 11, 16, 23, 4, 11, 16, 23, 4, 11, 16, 23,
   6, 10, 15, 21, 6, 10, 15, 21, 6, 10, 15, 21, 6, 10, 15, 21]

def md5G (i : Nat) : Nat :=
  if i < 16 then i
  else if i < 32 then (5 * i + 1) % 16
  else if i < 48 then (3 * i + 5) % 16
  else (7 * i) % 16

def md5F (i b c d : Nat) : Nat :=
  if i < 16 then (b &&& c) ||| (not32 b &&& d)
  else if i < 32 then (d &&& b) ||| (not32 d &&& c)
  else if i < 48 then b ^^^ c ^^^ d
  else c ^^^ (b ||| not32 d)

def md5Op (ws : List Nat) (st : Nat × Nat × Nat × Nat) (i : Nat) :
    Nat × Nat × Nat × Nat :=
  let (a, b, c, d) := st
  let f := add32 (add32 (add32 a (md5F i b c d)) (md5K.getD i 0))
    (ws.getD (md5G i) 0)
  (d, add32 b (rotl32 f (md5S.getD i 0)), b, c)

def md5Block (st : Nat × Nat × Nat × Nat) (ws : List Nat) :
    Nat × Nat × Nat × Nat :=
  let r := (List.range 64).foldl (md5Op ws) st
  (add32 st.1 r.1, add32 st.2.1 r.2.1, add32 st.2.2.1 r.2.2.1,
    add32 st.2.2.2 r.2.2.2)

def leWords : List Nat → List Nat
  | b0 :: b1 :: b2 :: b3 :: r =>
      (b0 + 256 * b1 + 65536 * b2 + 16777216 * b3) :: leWords r
  | _ => []

def chunksAux : Nat → List Nat → List (List Nat)
  | 0, _ => []
  | _, [] => []
  | fuel + 1, l => l.take 64 :: chunksAux fuel (l.drop 64)

def leBytes (n : Nat) : Nat → List Nat
  | 0 => []
  | k + 1 => n % 256 :: leBytes (n / 256) k

def md5Pad (msg : List Nat) : List Nat :=
  let len := msg.length
  let z := (56 + 64 - (len + 1) % 64) % 64
  msg ++ 128 :: List.replicate z 0 ++ leBytes (8 * len) 8

def md5Bytes (msg : List Nat) : List Nat :=
  let padded := md5Pad msg
  let st := (chunksAux padded.length padded).foldl
    (fun s ch => md5Block s (leWords ch))
    (0x67452301, 0xefcdab89, 0x98badcfe, 0x10325476)
  leBytes st.1 4 ++ leBytes st.2.1 4 ++ leBytes st.2.2.1 4 ++ leBytes st.2.2.2 4

def md5Hex (msg : List Nat) : String :=
  String.mk ((md5Bytes msg).foldr
    (fun b acc => hexDig (b / 16) :: hexDig (b % 16) :: acc) [])

/-! UTF-8 encoding of the serialized content (`content.encode()`). -/

def utf8Bytes (c : Char) : List Nat :=
  let n := c.toNat
  if n < 128 then [n]
  else if n < 2048 then [192 + n / 64, 128 + n % 64]
  else if n < 65536 then [224 + n / 4096, 128 + (n / 64) % 64, 128 + n % 64]
  else [240 + n / 262144, 128 + (n / 4096) % 64, 128 + (n / 64) % 64,
    128 + n % 64]

def utf8Encode : List Char → List Nat
  | [] => []
  | c :: s => utf8Bytes c ++ utf8Encode s

/-- The function `LRUCache.make_key(*args)`: md5 hex digest of the UTF-8 bytes of
`json.dumps(args, sort_keys=True, ensure_ascii=False)`. -/
def LRUCache.make_key (parts : List String) : String :=
  md5Hex (utf8Encode (serStrings (parts.map String.data)))

/-- The character class Python `str.strip()` removes: exactly the code
points for which `str.isspace()` is true — `\t \n \v \f \r` (9-13), the
information separators `\x1c`-`\x1f` (28-31), space (32), next line `\x85`
(133), no-break space `\xa0` (160), ogham space mark (5760), the Unicode
space separators (8192-8202), line separator (8232), paragraph separator
(8233), narrow no-break space (8239), medium mathematical space (8287) and
ideographic space (12288). -/
def pySpace (c : Char) : Bool :=
  decide ((9 ≤ c.toNat ∧ c.toNat ≤ 13) ∨ (28 ≤ c.toNat ∧ c.toNat ≤ 31) ∨
    c.toNat = 32 ∨ c.toNat = 133 ∨ c.toNat = 160 ∨ c.toNat = 5760 ∨
    (8192 ≤ c.toNat ∧ c.toNat ≤ 8202) ∨ c.toNat = 8232 ∨ c.toNat = 8233 ∨
    c.toNat = 8239 ∨ c.toNat = 8287 ∨ c.toNat = 12288)

def pyStrip (s : String) : String :=
  String.mk (((s.data.dropWhile pySpace).reverse.dropWhile pySpace).reverse)

/-- The cache key `analyze_error` computes, lines 74-75:
`self._error_cache.make_key(code.strip(), error.strip())`. -/
def errorCacheKey (code error : String) : String :=
  LRUCache.make_key [pyStrip code, pyStrip error]

/-- C9 counterexample: the codes "x " and "x" are distinct (near-identical)
yet map to the same cache key, because `analyze_error` strips surrounding
whitespace before keying.  This falsifies "near-identical pairs (distinct
code or error text) do not map to the same key". -/
theorem make_key_near_identical_counterexample :
    ("x " : String) ≠ "x" ∧ errorCacheKey "x " "e" = errorCacheKey "x" "e" := by
  constructor
  · decide
  · have h : pyStrip "x " = pyStrip "x" := by decide
    unfold errorCacheKey
    rw [h]

/-- C9 as amended: the key is a deterministic function of the argument list;
swapping two distinct arguments changes the serialized input to the digest;
identical (code, error) pairs (after stripping) always collide — in
particular pairs that differ only in surrounding whitespace collide; and
pairs that are still distinct after stripping produce different inputs to
the digest (the serialization is injective on pairs). -/
theorem make_key_deterministic_order_sensitive :
    (∀ p q : List String, p = q → LRUCache.make_key p = LRUCache.make_key q) ∧
    (∀ a b : String, a ≠ b →
      serStrings [a.data, b.data] ≠ serStrings [b.data, a.data]) ∧
    (∀ c1 e1 c2 e2 : String, pyStrip c1 = pyStrip c2 → pyStrip e1 = pyStrip e2 →
      errorCacheKey c1 e1 = errorCacheKey c2 e2) ∧
    (∀ c1 e1 c2 e2 : String,
      (pyStrip c1, pyStrip e1) ≠ (pyStrip c2, pyStrip e2) →
      serStrings [(pyStrip c1).data, (pyStrip e1).data] ≠
        serStrings [(pyStrip c2).data, (pyStrip e2).data]) := by
  refine ⟨?_, ?_, ?_, ?_⟩
  · intro p q h; rw [h]
  · intro a b hne h
    obtain ⟨h1, -⟩ := serStrings_pair_injective h
    exact hne (string_data_inj h1)
  · intro c1 e1 c2 e2 h1 h2
    unfold errorCacheKey
    rw [h1, h2]
  · intro c1 e1 c2 e2 hne h
    obtain ⟨h1, h2⟩ := serStrings_pair_injective h
    exact hne (by rw [string_data_inj h1, string_data_inj h2])

/-- C9 witness: the amended properties at concrete inputs. -/
theorem make_key_deterministic_order_sensitive_witness :
    LRUCache.make_key ["a", "b"] = LRUCache.make_key ["a", "b"] ∧
    serStrings ["a".data, "b".data] ≠ serStrings ["b".data, "a".data] ∧
    errorCacheKey "x " "e" = errorCacheKey "x" "e" ∧
    serStrings [(pyStrip "a").data, (pyStrip "b").data] ≠
      serStrings [(pyStrip "c").data, (pyStrip "d").data] := by
  refine ⟨?_, ?_, ?_, ?_⟩
  · exact make_key_deterministic_order_sensitive.1 ["a", "b"] ["a", "b"] rfl
  · exact make_key_deterministic_order_sensitive.2.1 "a" "b" (by decide)
  · exact make_key_deterministic_order_sensitive.2.2.1 "x " "e" "x" "e"
      (by decide) (by decide)
  · exact make_key_deterministic_order_sensitive.2.2.2 "a" "b" "c" "d" (by decide)

/-!
The ChatGPT relay, `services/chatgpt_service.py` lines 49-228.  The outcome
of one provider request (`self.client.chat.completions.create(...)`) is
modelled as `Except String (Option String)`: `.error e` is a raised
exception with message `e` (`{e!s}` in the `except` clauses), `.ok c` is a
successful response whose `choices[0].message.content` is `c` (`none`
models Python `None`).  `content or default` is falsy-aware: `None` and the
empty string both fall back to the default text.
-/

def orDefault (c : Option String) (d : String) : String :=
  match c with
  | none => d
  | some s => if s = "" then d else s

structure AnalyzeResult where
  text : String
  cache : LRUCache
  networkCall : Bool

/-- The fetch-and-store path of `analyze_error` (lines 116-134): issue the
request; on success store the (never empty) result when `use_cache` is true;
on exception return the error text without touching the cache. -/
def analyzeFetch (provider : Except String (Option String)) (cache1 : LRUCache)
    (key : String) (use_cache : Bool) : AnalyzeResult :=
  match provider with
  | .error e => ⟨"分析錯誤時發生問題：" ++ e, cache1, true⟩
  | .ok c =>
      let result := orDefault c "無法分析此錯誤"
      ⟨result, if use_cache then cache1.set key result else cache1, true⟩

/-- The method `ChatGPTService.analyze_error` (lines 62-134).  With `use_cache` the key
is `make_key(code.strip(), error.strip())`; a cached truthy (non-empty)
value is returned without a provider call (the `get` still refreshes
recency); otherwise the provider is called. -/
def analyze_error (provider : Except String (Option String)) (cache : LRUCache)
    (code error : String) (use_cache : Bool) : AnalyzeResult :=
  let key := LRUCache.make_key [pyStrip code, pyStrip error]
  if use_cache then
    match cache.get key with
    | (some v, cache1) =>
        if v = "" then analyzeFetch provider cache1 key true
        else ⟨v, cache1, false⟩
    | (none, cache1) => analyzeFetch provider cache1 key true
  else analyzeFetch provider cache key false

/-- The method `ChatGPTService.analyze_code` (lines 136-171); no caching.  The `code`
and `context` arguments only shape the prompt, which the provider outcome
already reflects. -/
def analyze_code (provider : Except String (Option String))
    (code : String) (context : Option String) : String :=
  match provider with
  | .ok c => orDefault c "無法分析此程式碼"
  | .error e => "分析程式碼時發生問題：" ++ e

/-- The method `ChatGPTService.chat` (lines 173-198); non-streaming, no caching. -/
def chat (provider : Except String (Option String))
    (message : String) (notebook_context : Option String) : String :=
  match provider with
  | .ok c => orDefault c "抱歉，我無法回應這個問題。"
  | .error e => "發生錯誤：" ++ e

/-!
`ChatGPTService.chat_stream` (lines 200-228), an async generator.  The
provider stream is modelled as the sequence of chunk events it delivers
before terminating: each event carries `choices[0].delta.content`
(`none` models "no choices or content is None").  `StreamOutcome.failCreate`
is an exception raised before any chunk (e.g. at `create(...)`);
`StreamOutcome.events evs err` delivers `evs` and then either ends normally
(`err = none`) or raises with message `err`.  The generator yields the
truthy contents in order and converts any exception into one final in-band
error increment.
-/

inductive StreamOutcome where
  | failCreate (e : String)
  | events (evs : List (Option String)) (err : Option String)

def yieldable : Option String → Option String
  | none => none
  | some c => if c = "" then none else some c

def chat_stream : StreamOutcome → List String
  | .failCreate e => ["發生錯誤：" ++ e]
  | .events evs err =>
      evs.filterMap yieldable ++
        (match err with
         | some e => ["發生錯誤：" ++ e]
         | none => [])

theorem lookupKey_isSome_of_mem {k : String} {l : List (String × String)}
    (h : k ∈ l.map Prod.fst) : (lookupKey k l).isSome := by
  by_contra hn
  rw [Option.not_isSome_iff_eq_none] at hn
  exact not_mem_of_lookupKey_eq_none hn h

theorem lookupKey_set_self (cache1 : LRUCache) (k v : String) :
    lookupKey k (cache1.set k v).cache = some v := by
  by_cases hs : (lookupKey k cache1.cache).isSome
  · simp only [LRUCache.set, if_pos hs]
    exact lookupKey_append_self (not_mem_keys_eraseKey _ _)
  · have hnm : k ∉ cache1.cache.map Prod.fst :=
      fun hmem => hs (lookupKey_isSome_of_mem hmem)
    by_cases hc : cache1.max_size ≤ cache1.cache.length
    · simp only [LRUCache.set, if_neg hs, if_pos hc]
      refine lookupKey_append_self ?_
      intro hmem
      exact hnm (((List.drop_sublist 1 cache1.cache).map Prod.fst).subset hmem)
    · simp only [LRUCache.set, if_neg hs, if_neg hc]
      exact lookupKey_append_self hnm

/-- C3: calling `analyze_error` twice with the same `(code, error)` and
`use_cache = True`, where the provider outcome seen by the first call is a
success, makes at most one provider call in total; the second call returns
exactly the first call's string with no network round trip, whatever
provider outcome the second call would have seen.  The hypothesis
`0 < cache.max_size` records that the embedding of `popitem` assumes a
non-empty dict (the service's class-level caches have sizes 200 and 100). -/
theorem analyze_error_cache_at_most_one_call (cache : LRUCache)
    (hm : 0 < cache.max_size) (code error : String) (c : Option String)
    (provider2 : Except String (Option String)) :
    (analyze_error provider2
        (analyze_error (.ok c) cache code error true).cache
        code error true).text =
      (analyze_error (.ok c) cache code error true).text ∧
    (analyze_error provider2
        (analyze_error (.ok c) cache code error true).cache
        code error true).networkCall = false ∧
    ((analyze_error (.ok c) cache code error true).networkCall.toNat +
      (analyze_error provider2
        (analyze_error (.ok c) cache code error true).cache
        code error true).networkCall.toNat ≤ 1) := by
  have hne : orDefault c "無法分析此錯誤" ≠ "" := by
    rcases c with _ | s
    · simp [orDefault]
    · by_cases hs : s = "" <;> simp [orDefault, hs]
  set k := LRUCache.make_key [pyStrip code, pyStrip error] with hk
  rcases hlk : lookupKey k cache.cache with _ | v
  · have h1 : analyze_error (.ok c) cache code error true =
        ⟨orDefault c "無法分析此錯誤",
          cache.set k (orDefault c "無法分析此錯誤"), true⟩ := by
      simp [analyze_error, ← hk, LRUCache.get, hlk, analyzeFetch]
    have h2 : lookupKey k (cache.set k (orDefault c "無法分析此錯誤")).cache =
        some (orDefault c "無法分析此錯誤") :=
      lookupKey_set_self cache k _
    rw [h1]
    simp [analyze_error, ← hk, LRUCache.get, h2, hne]
  · have hst1 : cache.get k =
        (some v, ⟨eraseKey k cache.cache ++ [(k, v)], cache.max_size⟩) := by
      simp [LRUCache.get, hlk]
    by_cases hv : v = ""
    · subst hv
      have h1 : analyze_error (.ok c) cache code error true =
          ⟨orDefault c "無法分析此錯誤",
            LRUCache.set ⟨eraseKey k cache.cache ++ [(k, "")], cache.max_size⟩ k
              (orDefault c "無法分析此錯誤"), true⟩ := by
        simp [analyze_error, ← hk, hst1, analyzeFetch]
      have h2 :=
        lookupKey_set_self ⟨eraseKey k cache.cache ++ [(k, "")], cache.max_size⟩
          k (orDefault c "無法分析此錯誤")
      rw [h1]
      simp [analyze_error, ← hk, LRUCache.get, h2, hne]
    · have h1 : analyze_error (.ok c) cache code error true =
          ⟨v, ⟨eraseKey k cache.cache ++ [(k, v)], cache.max_size⟩, false⟩ := by
        simp [analyze_error, ← hk, hst1, hv]
      have h2 : lookupKey k (eraseKey k cache.cache ++ [(k, v)]) = some v :=
        lookupKey_append_self (not_mem_keys_eraseKey _ _)
      rw [h1]
      simp [analyze_error, ← hk, LRUCache.get, h2, hv]

/-- C3 witness: starting from the empty error cache of capacity 200 with a
successful provider response "hi", the second identical call makes no
network call, the two calls make one provider call in total, and both return
"hi". -/
theorem analyze_error_cache_at_most_one_call_witness :
    (analyze_error (.error "down")
        (analyze_error (.ok (some "hi")) ⟨[], 200⟩ "x" "e" true).cache
        "x" "e" true).text =
      (analyze_error (.ok (some "hi")) ⟨[], 200⟩ "x" "e" true).text ∧
    (analyze_error (.error "down")
        (analyze_error (.ok (some "hi")) ⟨[], 200⟩ "x" "e" true).cache
        "x" "e" true).networkCall = false ∧
    ((analyze_error (.ok (some "hi")) ⟨[], 200⟩ "x" "e" true).networkCall.toNat +
      (analyze_error (.error "down")
        (analyze_error (.ok (some "hi")) ⟨[], 200⟩ "x" "e" true).cache
        "x" "e" true).networkCall.toNat ≤ 1) :=
  analyze_error_cache_at_most_one_call ⟨[], 200⟩ (by decide) "x" "e"
    (some "hi") (.error "down")

/-- C6: whenever the provider raises — before the stream is created or after
any number of delivered increments — the sequence `chat_stream` yields is the
sequence the same events would have produced normally, followed by exactly
one final increment carrying the error text; iteration then ends normally
(the generator converts the exception rather than propagating it, so the
result is a totally defined finite list). -/
theorem chat_stream_in_band_error (evs : List (Option String)) (e : String) :
    chat_stream (.events evs (some e)) =
      chat_stream (.events evs none) ++ ["發生錯誤：" ++ e] ∧
    chat_stream (.failCreate e) =
      chat_stream (.events [] none) ++ ["發生錯誤：" ++ e] := by
  constructor
  · simp [chat_stream]
  · simp [chat_stream]

/-- C7: the non-streaming relay operations never raise: they are total
functions into `String`, and a provider exception `e` is converted into the
corresponding textual error message — for `analyze_error` whenever the call
actually reaches the provider (`networkCall = true`, i.e. no fresh cache hit
answered first). -/
theorem relay_error_conversion (e : String) (cache : LRUCache)
    (code error : String) (uc : Bool) (codeArg message : String)
    (context notebook_context : Option String) :
    analyze_code (.error e) codeArg context = "分析程式碼時發生問題：" ++ e ∧
    chat (.error e) message notebook_context = "發生錯誤：" ++ e ∧
    ((analyze_error (.error e) cache code error uc).networkCall = true →
      (analyze_error (.error e) cache code error uc).text =
        "分析錯誤時發生問題：" ++ e) := by
  refine ⟨rfl, rfl, ?_⟩
  intro hn
  set k := LRUCache.make_key [pyStrip code, pyStrip error] with hk
  rcases uc with _ | _
  · simp [analyze_error, ← hk, analyzeFetch]
  · rcases hlk : lookupKey k cache.cache with _ | v
    · simp [analyze_error, ← hk, LRUCache.get, hlk, analyzeFetch]
    · by_cases hv : v = ""
      · subst hv
        simp [analyze_error, ← hk, LRUCache.get, hlk, analyzeFetch]
      · exfalso
        rw [show (analyze_error (.error e) cache code error true).networkCall =
            false from by simp [analyze_error, ← hk, LRUCache.get, hlk, hv]] at hn
        cases hn

/-- C7 witness: with cache disabled and provider failure "boom", each of the
three operations returns the in-band error text. -/
theorem relay_error_conversion_witness :
    analyze_code (.error "boom") "print(1)" none = "分析程式碼時發生問題：boom" ∧
    chat (.error "boom") "hello" none = "發生錯誤：boom" ∧
    (analyze_error (.error "boom") ⟨[], 200⟩ "x" "e" false).text =
      "分析錯誤時發生問題：boom" := by
  have h := relay_error_conversion "boom" ⟨[], 200⟩ "x" "e" false "print(1)"
    "hello" none none
  exact ⟨h.1, h.2.1, h.2.2 rfl⟩

/-!
The SSE streaming endpoint, `handlers.py` lines 303-372
(`ChatGPTStreamHandler.post`), after the 401/400/503 gates have passed.
Each increment from `chat_stream` is appended to `full_response`, framed as
one `data: {"chunk": …}` event-stream record (`json.dumps` with
`ensure_ascii=False`) and flushed before the next increment is pulled.  The
transport is modelled by the number of flushes it will still accept
(`rem`): a flush with `rem = 0` raises `StreamClosedError`, which the
handler catches with `pass` — nothing further is consumed or written and no
fault reaches the caller.  On normal exhaustion the literal `[DONE]` frame
is flushed, and only then — inside the same `try` block — is the background
persistence task scheduled (when the external store is configured and the
session id is truthy), carrying the original message and the accumulated
transcript.
-/

def jsonQuote (s : String) : String := String.mk (jsonQuoteChars s.data)

def frameChunk (c : String) : String :=
  "data: \x7b\"chunk\": " ++ jsonQuote c ++ "\x7d\n\n"

structure StreamRun where
  delivered : List String
  consumed : Nat
  sentinel : Bool
  raisedToCaller : Bool
  bgTask : Option (String × String)
  transcript : String

def sconcat : List String → String
  | [] => ""
  | c :: cs => c ++ sconcat cs

def streamLoop (supa : Bool) (session_id message : String) :
    List String → Nat → String → StreamRun
  | [], rem, full =>
      if 0 < rem then
        { delivered := [], consumed := 0, sentinel := true,
          raisedToCaller := false,
          bgTask := if supa ∧ session_id ≠ "" then some (message, full) else none,
          transcript := full }
      else
        { delivered := [], consumed := 0, sentinel := false,
          raisedToCaller := false, bgTask := none, transcript := full }
  | c :: cs, rem, full =>
      match rem with
      | 0 =>
          { delivered := [], consumed := 1, sentinel := false,
            raisedToCaller := false, bgTask := none, transcript := full ++ c }
      | rem' + 1 =>
          let r := streamLoop supa session_id message cs rem' (full ++ c)
          { delivered := frameChunk c :: r.delivered
            consumed := r.consumed + 1
            sentinel := r.sentinel
            raisedToCaller := r.raisedToCaller
            bgTask := r.bgTask
            transcript := r.transcript }

def stream_post (supa : Bool) (session_id message : String)
    (chunks : List String) (cap : Nat) : StreamRun :=
  streamLoop supa session_id message chunks cap ""

theorem streamLoop_spec (supa : Bool) (sid msg : String) :
    ∀ (chunks : List String) (cap : Nat) (full : String),
      (streamLoop supa sid msg chunks cap full).raisedToCaller = false ∧
      (chunks.length < cap →
        (streamLoop supa sid msg chunks cap full).delivered =
          chunks.map frameChunk ∧
        (streamLoop supa sid msg chunks cap full).sentinel = true ∧
        (streamLoop supa sid msg chunks cap full).consumed = chunks.length ∧
        (streamLoop supa sid msg chunks cap full).transcript =
          full ++ sconcat chunks ∧
        (streamLoop supa sid msg chunks cap full).bgTask =
          (if supa ∧ sid ≠ "" then some (msg, full ++ sconcat chunks)
           else none)) ∧
      (cap ≤ chunks.length →
        (streamLoop supa sid msg chunks cap full).delivered =
          (chunks.take cap).map frameChunk ∧
        (streamLoop supa sid msg chunks cap full).sentinel = false ∧
        (streamLoop supa sid msg chunks cap full).consumed =
          min (cap + 1) chunks.length ∧
        (streamLoop supa sid msg chunks cap full).bgTask = none) := by
  intro chunks
  induction chunks with
  | nil =>
    intro cap full
    refine ⟨?_, ?_, ?_⟩
    · by_cases h : 0 < cap <;> simp [streamLoop, h]
    · intro h
      simp only [List.length_nil] at h
      simp [streamLoop, h, sconcat]
    · intro h
      simp only [List.length_nil, Nat.le_zero] at h
      simp [streamLoop, h]
  | cons c cs ih =>
    intro cap full
    cases cap with
    | zero =>
      refine ⟨by simp [streamLoop], ?_, ?_⟩
      · intro h
        simp only [List.length_cons] at h
        omega
      · intro h
        refine ⟨by simp [streamLoop], by simp [streamLoop], ?_, by simp [streamLoop]⟩
        simp only [streamLoop, List.length_cons, List.length_nil]
        omega
    | succ cap' =>
      have ihr := ih cap' (full ++ c)
      refine ⟨?_, ?_, ?_⟩
      · simp [streamLoop, ihr.1]
      · intro h
        simp only [List.length_cons] at h
        have h' : cs.length < cap' := by omega
        obtain ⟨hd, hs, hc, ht, hb⟩ := ihr.2.1 h'
        refine ⟨?_, ?_, ?_, ?_, ?_⟩
        · simp [streamLoop, hd]
        · simp [streamLoop, hs]
        · simp [streamLoop, hc]
        · simp [streamLoop, ht, sconcat, String.append_assoc]
        · simp [streamLoop, hb, sconcat, String.append_assoc]
      · intro h
        simp only [List.length_cons] at h
        have h' : cap' ≤ cs.length := by omega
        obtain ⟨hd, hs, hc, hb⟩ := ihr.2.2 h'
        refine ⟨?_, ?_, ?_, ?_⟩
        · simp [streamLoop, hd]
        · simp [streamLoop, hs]
        · simp [streamLoop, hc]
          omega
        · simp [streamLoop, hb]

/-- C4: every increment is framed as exactly one event-stream record and the
frames delivered to the transport are precisely the frames of the consumed
increments, in production order; an increment is only pulled after the
previous one was flushed.  On normal exhaustion (the transport accepts all
flushes) every increment is delivered and the stream ends with the `[DONE]`
sentinel frame; if the transport reports closed mid-stream, the sentinel is
never written, at most one increment beyond the last delivered one was
consumed and none after it, and no fault is raised to the caller. -/
theorem sse_stream_framing (supa : Bool) (sid msg : String)
    (chunks : List String) (cap : Nat) :
    (stream_post supa sid msg chunks cap).raisedToCaller = false ∧
    (chunks.length < cap →
      (stream_post supa sid msg chunks cap).delivered =
        chunks.map frameChunk ∧
      (stream_post supa sid msg chunks cap).sentinel = true ∧
      (stream_post supa sid msg chunks cap).consumed = chunks.length) ∧
    (cap ≤ chunks.length →
      (stream_post supa sid msg chunks cap).delivered =
        (chunks.take cap).map frameChunk ∧
      (stream_post supa sid msg chunks cap).sentinel = false ∧
      (stream_post supa sid msg chunks cap).consumed =
        min (cap + 1) chunks.length) := by
  have h := streamLoop_spec supa sid msg chunks cap ""
  refine ⟨h.1, ?_, ?_⟩
  · intro hlt
    obtain ⟨hd, hs, hc, -, -⟩ := h.2.1 hlt
    exact ⟨hd, hs, hc⟩
  · intro hle
    obtain ⟨hd, hs, hc, -⟩ := h.2.2 hle
    exact ⟨hd, hs, hc⟩

/-- C4 witness: two increments with a transport accepting five flushes
(normal completion) and with a transport accepting one flush (closed
mid-stream). -/
theorem sse_stream_framing_witness :
    (stream_post true "s" "m" ["a", "b"] 5).raisedToCaller = false ∧
    (stream_post true "s" "m" ["a", "b"] 5).delivered =
      ["a", "b"].map frameChunk ∧
    (stream_post true "s" "m" ["a", "b"] 5).sentinel = true ∧
    (stream_post true "s" "m" ["a", "b"] 1).delivered =
      (["a", "b"].take 1).map frameChunk ∧
    (stream_post true "s" "m" ["a", "b"] 1).sentinel = false ∧
    (stream_post true "s" "m" ["a", "b"] 1).consumed = min 2 2 := by
  have h5 := sse_stream_framing true "s" "m" ["a", "b"] 5
  have h1 := sse_stream_framing true "s" "m" ["a", "b"] 1
  exact ⟨h5.1, (h5.2.1 (by decide)).1, (h5.2.1 (by decide)).2.1,
    (h1.2.2 (by decide)).1, (h1.2.2 (by decide)).2.1, (h1.2.2 (by decide)).2.2⟩

/-- C5 counterexample: store configured (`supa = true`) and session truthy,
three increments but a transport that closes after one flush: the run ends
in the aborted state (no sentinel, an increment left unconsumed), yet no
background persistence task is scheduled — the `asyncio.create_task` call
sits inside the `try` block after the `[DONE]` flush, so `StreamClosedError`
skips it.  This falsifies the claim that persistence is scheduled on both
terminal states. -/
theorem stream_bg_on_abort_counterexample :
    (stream_post true "s1" "hello" ["a", "b", "c"] 1).sentinel = false ∧
    (stream_post true "s1" "hello" ["a", "b", "c"] 1).consumed = 2 ∧
    (stream_post true "s1" "hello" ["a", "b", "c"] 1).bgTask = none :=
  ⟨rfl, rfl, rfl⟩

/-- C5 as amended: the fire-and-forget persistence task — carrying the
original user message and the full accumulated transcript (the concatenation
of all increments) — is scheduled exactly when the increment sequence
completes normally and the sentinel flush succeeds, the external store is
configured and the session id is truthy; when the transport closes
mid-stream (client disconnect) no persistence task is scheduled. -/
theorem stream_bg_persistence (supa : Bool) (sid msg : String)
    (chunks : List String) (cap : Nat) :
    (chunks.length < cap →
      (stream_post supa sid msg chunks cap).transcript = sconcat chunks ∧
      (stream_post supa sid msg chunks cap).bgTask =
        (if supa ∧ sid ≠ "" then some (msg, sconcat chunks) else none)) ∧
    (cap ≤ chunks.length →
      (stream_post supa sid msg chunks cap).bgTask = none) := by
  have h := streamLoop_spec supa sid msg chunks cap ""
  refine ⟨?_, ?_⟩
  · intro hlt
    obtain ⟨-, -, -, ht, hb⟩ := h.2.1 hlt
    constructor
    · show (streamLoop supa sid msg chunks cap "").transcript = sconcat chunks
      rw [ht, String.empty_append]
    · show (streamLoop supa sid msg chunks cap "").bgTask = _
      rw [hb, String.empty_append]
  · intro hle
    exact (h.2.2 hle).2.2.2

/-- C5 witness: with the store configured and session "s1", a completed
two-increment stream schedules the task with the concatenated transcript,
and a stream cut after one flush schedules nothing. -/
theorem stream_bg_persistence_witness :
    (stream_post true "s1" "hi" ["a", "b"] 5).bgTask =
      some ("hi", sconcat ["a", "b"]) ∧
    (stream_post true "s1" "hi" ["a", "b"] 1).bgTask = none := by
  have h5 := stream_bg_persistence true "s1" "hi" ["a", "b"] 5
  have h1 := stream_bg_persistence true "s1" "hi" ["a", "b"] 1
  refine ⟨?_, h1.2 (by decide)⟩
  rw [(h5.1 (by decide)).2]
  simp

/-!
`BaseExtensionHandler.get_json_body`, `handlers.py` lines 66-71:
`json.loads(self.request.body.decode("utf-8"))` with
`except (json.JSONDecodeError, UnicodeDecodeError): return {}`.
The request body is a byte list; an absent body is the empty byte string.
`utf8Decode` is strict UTF-8 (continuation ranges, no overlongs, no
surrogates) like `bytes.decode("utf-8")`; `parseJson` is the JSON grammar
accepted by `json.loads` (whitespace, null/true/false, strings with
escapes, numbers, arrays, objects; numbers are kept as lexemes since no
handler inspects them).  Fuel bounds the recursion; it is chosen larger
than any derivation over the input needs, and a fuel exhaustion simply
reports a parse failure.  Two marginal divergences from CPython are noted
inline (lone surrogate escapes, astral surrogate pairs); neither affects
the failure-handling behaviour the claims are about.
-/

inductive PyVal where
  | null
  | bool (b : Bool)
  | num (lexeme : String)
  | str (s : String)
  | list (xs : List PyVal)
  | dict (kvs : List (String × PyVal))

def jsonWs (c : Char) : Bool :=
  c == ' ' || c == '\t' || c == '\n' || c == '\r'

def skipWs (l : List Char) : List Char := l.dropWhile jsonWs

def lbrace : Char := Char.ofNat 123

def rbrace : Char := Char.ofNat 125

def hexValAny (c : Char) : Option Nat :=
  if 48 ≤ c.toNat ∧ c.toNat ≤ 57 then some (c.toNat - 48)
  else if 97 ≤ c.toNat ∧ c.toNat ≤ 102 then some (c.toNat - 87)
  else if 65 ≤ c.toNat ∧ c.toNat ≤ 70 then some (c.toNat - 55)
  else none

def parseJStr : List Char → Option (List Char × List Char)
  | [] => none
  | c :: r =>
    if c = '"' then some ([], r)
    else if c = '\\' then
      match r with
      | [] => none
      | e :: r2 =>
        if e = '"' then (parseJStr r2).map (fun p => ('"' :: p.1, p.2))
        else if e = '\\' then (parseJStr r2).map (fun p => ('\\' :: p.1, p.2))
        else if e = '/' then (parseJStr r2).map (fun p => ('/' :: p.1, p.2))
        else if e = 'n' then (parseJStr r2).map (fun p => ('\n' :: p.1, p.2))
        else if e = 't' then (parseJStr r2).map (fun p => ('\t' :: p.1, p.2))
        else if e = 'r' then (parseJStr r2).map (fun p => ('\r' :: p.1, p.2))
        else if e = 'b' then (parseJStr r2).map (fun p => (Char.ofNat 8 :: p.1, p.2))
        else if e = 'f' then (parseJStr r2).map (fun p => (Char.ofNat 12 :: p.1, p.2))
        else if e = 'u' then
          match r2 with
          | h1 :: h2 :: h3 :: h4 :: r3 =>
            match hexValAny h1, hexValAny h2, hexValAny h3, hexValAny h4 with
            | some n1, some n2, some n3, some n4 =>
              let v := 4096 * n1 + 256 * n2 + 16 * n3 + n4
              -- CPython keeps lone surrogates and combines surrogate pairs;
              -- Lean has no surrogate code points, so they are rejected here.
              if 55296 ≤ v ∧ v < 57344 then none
              else (parseJStr r3).map (fun p => (Char.ofNat v :: p.1, p.2))
            | _, _, _, _ => none
          | _ => none
        else none
    else if c.toNat < 32 then none
    else (parseJStr r).map (fun p => (c :: p.1, p.2))

def parseFrac (l : List Char) : Option (List Char × List Char) :=
  match l with
  | c :: r =>
    if c = '.' then
      let ds := r.takeWhile Char.isDigit
      if ds.isEmpty then none
      else some (c :: ds, r.dropWhile Char.isDigit)
    else some ([], l)
  | [] => some ([], l)

def parseExp (l : List Char) : Option (List Char × List Char) :=
  match l with
  | c :: r =>
    if c = 'e' ∨ c = 'E' then
      match r with
      | s :: r2 =>
        if s = '+' ∨ s = '-' then
          let ds := r2.takeWhile Char.isDigit
          if ds.isEmpty then none
          else some (c :: s :: ds, r2.dropWhile Char.isDigit)
        else
          let ds := r.takeWhile Char.isDigit
          if ds.isEmpty then none
          else some (c :: ds, r.dropWhile Char.isDigit)
      | [] => none
    else some ([], l)
  | [] => some ([], l)

def parseNum (l : List Char) : Option (String × List Char) :=
  let np : List Char × List Char :=
    match l with
    | c :: r => if c = '-' then (['-'], r) else ([], l)
    | [] => ([], l)
  let ip := np.2.takeWhile Char.isDigit
  let l2 := np.2.dropWhile Char.isDigit
  if ip.isEmpty then none
  else if 1 < ip.length ∧ ip.headD '0' = '0' then none
  else
    match parseFrac l2 with
    | none => none
    | some (fp, l3) =>
      match parseExp l3 with
      | none => none
      | some (ep, l4) => some (String.mk (np.1 ++ ip ++ fp ++ ep), l4)

mutual

def parseVal : Nat → List Char → Option (PyVal × List Char)
  | 0, _ => none
  | fuel + 1, input =>
    match skipWs input with
    | [] => none
    | c :: r =>
      if c = 'n' then
        match r with
        | 'u' :: 'l' :: 'l' :: r2 => some (.null, r2)
        | _ => none
      else if c = 't' then
        match r with
        | 'r' :: 'u' :: 'e' :: r2 => some (.bool true, r2)
        | _ => none
      else if c = 'f' then
        match r with
        | 'a' :: 'l' :: 's' :: 'e' :: r2 => some (.bool false, r2)
        | _ => none
      else if c = '"' then
        (parseJStr r).map (fun p => (.str (String.mk p.1), p.2))
      else if c = '[' then
        match skipWs r with
        | d :: r2 =>
          if d = ']' then some (.list [], r2)
          else (parseElems fuel (d :: r2)).map (fun p => (.list p.1, p.2))
        | [] => none
      else if c = lbrace then
        match skipWs r with
        | d :: r2 =>
          if d = rbrace then some (.dict [], r2)
          else (parseMembers fuel (d :: r2)).map (fun p => (.dict p.1, p.2))
        | [] => none
      else if c = '-' ∨ c.isDigit then
        (parseNum (c :: r)).map (fun p => (.num p.1, p.2))
      else none

def parseElems : Nat → List Char → Option (List PyVal × List Char)
  | 0, _ => none
  | fuel + 1, input =>
    match parseVal fuel input with
    | none => none
    | some (v, r) =>
      match skipWs r with
      | c :: r2 =>
        if c = ',' then (parseElems fuel r2).map (fun p => (v :: p.1, p.2))
        else if c = ']' then some ([v], r2)
        else none
      | [] => none

def parseMembers : Nat → List Char → Option (List (String × PyVal) × List Char)
  | 0, _ => none
  | fuel + 1, input =>
    match skipWs input with
    | c :: r =>
      if c = '"' then
        match parseJStr r with
        | some (kcs, r2) =>
          match skipWs r2 with
          | d :: r3 =>
            if d = ':' then
              match parseVal fuel r3 with
              | some (v, r4) =>
                match skipWs r4 with
                | e :: r5 =>
                  if e = ',' then
                    (parseMembers fuel r5).map
                      (fun p => ((String.mk kcs, v) :: p.1, p.2))
                  else if e = rbrace then some ([(String.mk kcs, v)], r5)
                  else none
                | [] => none
              | none => none
            else none
          | [] => none
        | none => none
      else none
    | [] => none

end

def parseJson (chars : List Char) : Option PyVal :=
  match parseVal (2 * chars.length + 2) chars with
  | some (v, rest) => if (skipWs rest).isEmpty then some v else none
  | none => none

def utf8Decode : List Nat → Option (List Char)
  | [] => some []
  | b :: r =>
    if b < 128 then (utf8Decode r).map (fun cs => Char.ofNat b :: cs)
    else if b < 194 then none
    else if b < 224 then
      match r with
      | b2 :: r2 =>
        if 128 ≤ b2 ∧ b2 < 192 then
          (utf8Decode r2).map (fun cs => Char.ofNat ((b - 192) * 64 + (b2 - 128)) :: cs)
        else none
      | [] => none
    else if b < 240 then
      match r with
      | b2 :: b3 :: r2 =>
        let v := (b - 224) * 4096 + (b2 - 128) * 64 + (b3 - 128)
        if 128 ≤ b2 ∧ b2 < 192 ∧ 128 ≤ b3 ∧ b3 < 192 ∧ 2048 ≤ v ∧
            ¬(55296 ≤ v ∧ v < 57344) then
          (utf8Decode r2).map (fun cs => Char.ofNat v :: cs)
        else none
      | _ => none
    else if b < 245 then
      match r with
      | b2 :: b3 :: b4 :: r2 =>
        let v := (b - 240) * 262144 + (b2 - 128) * 4096 + (b3 - 128) * 64 +
          (b4 - 128)
        if 128 ≤ b2 ∧ b2 < 192 ∧ 128 ≤ b3 ∧ b3 < 192 ∧ 128 ≤ b4 ∧ b4 < 192 ∧
            65536 ≤ v ∧ v < 1114112 then
          (utf8Decode r2).map (fun cs => Char.ofNat v :: cs)
        else none
      | _ => none
    else none

def get_json_body (body : List Nat) : PyVal :=
  match utf8Decode body with
  | none => PyVal.dict []
  | some chars =>
    match parseJson chars with
    | none => PyVal.dict []
    | some v => v

/-- Python `dict.get(key)` restricted to string values: every handler reads
`session_id` (and the other fields) with `.get`, so a missing key yields
`None`.  On a JSON object with duplicate keys `json.loads` keeps the last
binding, hence the reversed search. -/
def pyDictGetStr (v : PyVal) (key : String) : Option String :=
  match v with
  | PyVal.dict kvs =>
    match (kvs.reverse.find? (fun p => p.1 == key)).map Prod.snd with
    | some (PyVal.str s) => some s
    | _ => none
  | _ => none

/-- C10: a request body that is absent (empty bytes), not valid UTF-8, or
not valid JSON makes `get_json_body` return the empty mapping instead of
raising; field lookups on the empty mapping yield `None`, so a guarded
handler takes exactly the missing-fields path — here the 401
`NOT_LOGGED_IN` rejection of the login guard, never an unhandled
exception. -/
theorem json_body_malformed_empty (body : List Nat) :
    (body = [] → get_json_body body = PyVal.dict []) ∧
    (utf8Decode body = none → get_json_body body = PyVal.dict []) ∧
    (∀ cs, utf8Decode body = some cs → parseJson cs = none →
      get_json_body body = PyVal.dict []) ∧
    pyDictGetStr (PyVal.dict []) "session_id" = none ∧
    (∀ (σ : Type) (store : SessionStore) (handler : σ → σ × JsonResp) (st : σ),
      require_login store (pyDictGetStr (PyVal.dict []) "session_id") none
        handler st = (st, notLoggedInResp)) := by
  refine ⟨?_, ?_, ?_, rfl, ?_⟩
  · intro h; subst h; rfl
  · intro h; simp [get_json_body, h]
  · intro cs h1 h2; simp [get_json_body, h1, h2]
  · intro σ store handler st
    rfl

/-- C10 witness: the empty body, the non-UTF-8 body `0xFF`, and the
truncated JSON body `{` all yield the empty mapping, and the login guard
then rejects with 401. -/
theorem json_body_malformed_empty_witness :
    get_json_body [] = PyVal.dict [] ∧
    get_json_body [255] = PyVal.dict [] ∧
    get_json_body [123] = PyVal.dict [] ∧
    require_login (fun _ => none) (pyDictGetStr (PyVal.dict []) "session_id")
      none (fun n : Nat => (n + 1, ⟨200, true, none⟩)) 0 =
      (0, notLoggedInResp) := by
  refine ⟨(json_body_malformed_empty []).1 rfl,
    (json_body_malformed_empty [255]).2.1 rfl,
    (json_body_malformed_empty [123]).2.2.1 [lbrace] rfl rfl,
    (json_body_malformed_empty [123]).2.2.2.2 Nat (fun _ => none)
      (fun n => (n + 1, ⟨200, true, none⟩)) 0⟩

end EduExt
